import Mathlib

/-!
Shallow embedding of `torch/csrc/utils/hash.h` (the `torch::hash` value-hashing
library): the Boost-style mixing primitive `hash_combine`, the SFINAE overload
dispatch `_hash_detail::dispatch_hash`, the `torch::hash` specializations for
`std::tuple` and `std::vector`, and the variadic entry point `get_hash`.

`std::size_t` values are modelled as natural numbers below `2 ^ 64`; every
operation that can wrap in C++ carries an explicit `% 2 ^ 64`.
-/

namespace TorchHash

/-- The word size of `std::size_t` on the modelled 64-bit platform. -/
def wordMod : Nat := 2 ^ 64

/-- `hash_combine(seed, value)` from `hash.h` line 35:
`seed ^ (value + 0x9e3779b9 + (seed << 6) + (seed >> 2))`, every intermediate
computed in `std::size_t` arithmetic (modulo `2 ^ 64`). -/
def hash_combine (seed value : Nat) : Nat :=
  seed ^^^ ((value + 0x9e3779b9 + (seed <<< 6) % wordMod + seed >>> 2) % wordMod)

/-- Compile-time description of a C++ scalar (non-composite) type `T` as seen by
the three `dispatch_hash` overloads: whether `std::hash<T>()(o)` is well-formed,
whether `T` is an enum, and whether `T::hash(o)` is a well-formed call; plus the
runtime behaviour of those hash functions on the value's representation.
For an enum type the value is represented by its underlying integer, and
`underStdHash` is the behaviour of `std::hash` at the underlying integer type. -/
structure ScalarTy where
  hasStdHash : Bool
  isEnum : Bool
  hasCustomHash : Bool
  stdHash : Nat → Nat
  underStdHash : Nat → Nat
  customHash : Nat → Nat

/-- C++ overload resolution over the three `dispatch_hash` function templates
(hash.h lines 57-71).  Viability by SFINAE: overload 1 (std::hash) requires
`std::hash<T>()(o)` well-formed and `T` not an enum (`type_if_not_enum`);
overload 2 requires `T` to be an enum; overload 3 requires `T::hash(o)`
well-formed.  All three have identical parameter lists `(const T&)`, so when
more than one is viable the call is ambiguous and fails to compile; when none
is viable the call fails to compile.  `none` models both compile failures. -/
def dispatch_hash (s : ScalarTy) (n : Nat) : Option Nat :=
  match s.hasStdHash && !s.isEnum, s.isEnum, s.hasCustomHash with
  | true, false, false => some (s.stdHash n)
  | false, true, false => some (s.underStdHash n)
  | false, false, true => some (s.customHash n)
  | _, _, _ => none

/-- A value together with the compile-time shape of its C++ type: a scalar of
some `ScalarTy`, a `std::tuple` of component values, or a `std::vector` of
element values. -/
inductive TVal where
  | scalar (s : ScalarTy) (n : Nat)
  | tup (vs : List TVal)
  | vec (vs : List TVal)

mutual

/-- `torch::hash<T>()(o)` followed through `_hash_detail::simple_get_hash`:
scalars go to `dispatch_hash`; `std::tuple` goes to the `tuple_hash` member
template, whose start index `sizeof...(Types)-1` underflows for the empty tuple
(no base case is ever reached: a compile failure, modelled as `none`);
`std::vector` folds `hash_combine` over the elements from seed `0`.
The tuple recursion `tuple_hash<idx>` (digest of indices `0..idx`) is unrolled
here as a forward accumulation: the accumulator after elements `0..i` is
exactly `tuple_hash<i>`'s digest — see `tuple_hash_idx` and theorem `c2`. -/
def hashOf : TVal → Option Nat
  | .scalar s n => dispatch_hash s n
  | .tup [] => none
  | .tup (v :: vs) =>
    match hashOf v with
    | none => none
    | some h => tupleFoldAux h vs
  | .vec vs => vecFoldAux 0 vs

/-- Accumulated tuple digest: `acc` is the digest of the components already
consumed (indices `0..i`); each further component `v` at index `i+1` updates it
to `hash_combine (simple_get_hash v) acc`, matching
`tuple_hash<idx>(t) = hash_combine(simple_get_hash(get<idx>(t)), tuple_hash<idx-1>(t))`. -/
def tupleFoldAux (acc : Nat) : List TVal → Option Nat
  | [] => some acc
  | v :: vs =>
    match hashOf v with
    | none => none
    | some h => tupleFoldAux (hash_combine h acc) vs

/-- The `std::vector` loop (hash.h lines 109-115):
`for elem in v: seed = hash_combine(seed, simple_get_hash(elem))`. -/
def vecFoldAux (seed : Nat) : List TVal → Option Nat
  | [] => some seed
  | v :: vs =>
    match hashOf v with
    | none => none
    | some h => vecFoldAux (hash_combine seed h) vs

end

/-- Literal index-form of the member template
`hash<std::tuple<Types...>>::tuple_hash<idx>`: at index `0` the digest is
`simple_get_hash` of component `0`; at index `idx+1` it is
`hash_combine(simple_get_hash(component idx+1), digest of indices 0..idx)`.
Out-of-range component access is a compile failure (`none`). -/
def tuple_hash_idx (vs : List TVal) : Nat → Option Nat
  | 0 =>
    match vs[0]? with
    | some v => hashOf v
    | none => none
  | idx + 1 =>
    match vs[idx + 1]? with
    | some v =>
      match hashOf v, tuple_hash_idx vs idx with
      | some h, some r => some (hash_combine h r)
      | _, _ => none
    | none => none

/-- `get_hash(args...)` (hash.h lines 134-137): ties the arguments into a tuple
in argument order and delegates to the `std::tuple` specialization. -/
def get_hash (args : List TVal) : Option Nat :=
  hashOf (TVal.tup args)

/-- Model instance: an ordinary integral type such as `std::size_t`, where
`std::hash` is usable (the identity on the value, as in libstdc++), the type is
not an enum, and there is no static member `hash`. -/
def natTy : ScalarTy :=
  ⟨true, false, false, (· % wordMod), (· % wordMod), (· % wordMod)⟩

/-- Model instance: a class type that both has a usable `std::hash`
specialization and declares a static member `T::hash`, with the two hash
functions disagreeing everywhere. -/
def bothTy : ScalarTy :=
  ⟨true, false, true, (· % wordMod), (· % wordMod), fun n => (n + 7) % wordMod⟩

/-- Model instance: a class type whose only hashing capability is a static
member `T::hash` (no `std::hash` specialization, not an enum). -/
def custTy : ScalarTy :=
  ⟨false, false, true, (· % wordMod), (· % wordMod), fun n => (n + 7) % wordMod⟩

/-- Model instance: an enum type on a compiler whose `std::hash` already
supports enums (the case called out in the NOTE above `dispatch_hash`): the
first overload is still disabled by `type_if_not_enum`, and the value is hashed
through `std::hash` at the underlying integer type, modelled here as
multiplication by 3. -/
def enumE : ScalarTy :=
  ⟨true, true, false, (· % wordMod), fun n => (n * 3) % wordMod, (· % wordMod)⟩

/-- Model instance: a type with no usable `std::hash`, not an enum, and no
static member `hash` — no `dispatch_hash` overload is viable for it. -/
def badTy : ScalarTy :=
  ⟨false, false, false, (· % wordMod), (· % wordMod), (· % wordMod)⟩

/-- The integral type `I` underlying an enum, as a `ScalarTy`: `std::hash<I>`
is usable with behaviour `f`, `I` is not itself an enum, and it has no static
member `hash`, so it is hashed via the standard strategy. -/
def stdOnlyTy (f : Nat → Nat) : ScalarTy :=
  ⟨true, false, false, f, f, f⟩

/-! ### Helper lemmas -/

theorem tupleFoldAux_append (v : TVal) :
    ∀ (vs : List TVal) (acc : Nat),
      tupleFoldAux acc (vs ++ [v]) =
        match tupleFoldAux acc vs, hashOf v with
        | some r, some h => some (hash_combine h r)
        | _, _ => none := by
  intro vs
  induction vs with
  | nil =>
    intro acc
    cases hv : hashOf v <;> simp [tupleFoldAux, hv]
  | cons u us ih =>
    intro acc
    cases hu : hashOf u
    · cases hv : hashOf v <;> simp [tupleFoldAux, hu, hv]
    · simp [tupleFoldAux, hu, ih]

theorem hashOf_tup_concat (l : List TVal) (v : TVal) (hl : l ≠ []) :
    hashOf (TVal.tup (l ++ [v])) =
      match hashOf (TVal.tup l), hashOf v with
      | some r, some h => some (hash_combine h r)
      | _, _ => none := by
  obtain ⟨u, us, rfl⟩ := List.exists_cons_of_ne_nil hl
  cases hu : hashOf u
  · cases hv : hashOf v <;> simp [hashOf, hu, hv]
  · simp [hashOf, hu, tupleFoldAux_append]

theorem tuple_hash_idx_append (l : List TVal) (v : TVal) :
    ∀ i, i < l.length → tuple_hash_idx (l ++ [v]) i = tuple_hash_idx l i := by
  intro i
  induction i with
  | zero =>
    intro h
    have hEq : (l ++ [v])[0]? = l[0]? := by
      rw [List.getElem?_append]
      simp [h]
    simp only [tuple_hash_idx, hEq]
  | succ i ih =>
    intro h
    have hEq : (l ++ [v])[i + 1]? = l[i + 1]? := by
      rw [List.getElem?_append]
      simp [h]
    simp only [tuple_hash_idx, hEq, ih (Nat.lt_of_succ_lt h)]

theorem hashOf_tup_eq_idx :
    ∀ (l : List TVal), l ≠ [] →
      hashOf (TVal.tup l) = tuple_hash_idx l (l.length - 1) := by
  intro l
  induction l using List.reverseRecOn with
  | nil => intro h; exact absurd rfl h
  | append_singleton l v ih =>
    intro _
    by_cases hl : l = []
    · subst hl
      cases hv : hashOf v <;> simp [hashOf, tupleFoldAux, tuple_hash_idx, hv]
    · obtain ⟨k, hk⟩ := Nat.exists_eq_succ_of_ne_zero
        (fun h => hl (List.length_eq_zero.mp h))
      have hidx : tuple_hash_idx (l ++ [v]) k = hashOf (TVal.tup l) := by
        rw [tuple_hash_idx_append l v k (by omega), ih hl]
        congr 1
        omega
      have hget : (l ++ [v])[k + 1]? = some v := by
        rw [show k + 1 = l.length from hk.symm]
        exact List.getElem?_concat_length l v
      have hlen : (l ++ [v]).length - 1 = k + 1 := by simp [hk]
      rw [hashOf_tup_concat l v hl, hlen]
      cases htl : hashOf (TVal.tup l) <;> cases hv : hashOf v <;>
        simp [tuple_hash_idx, hget, hidx, htl, hv]

theorem vecFoldAux_foldl :
    ∀ (vs : List TVal) (hs : List Nat) (seed : Nat),
      vs.map hashOf = hs.map some →
      vecFoldAux seed vs = some (hs.foldl hash_combine seed) := by
  intro vs
  induction vs with
  | nil =>
    intro hs seed h
    have : hs = [] := by
      cases hs with
      | nil => rfl
      | cons x xs => simp at h
    subst this
    simp [vecFoldAux]
  | cons v vs ih =>
    intro hs seed h
    cases hs with
    | nil => simp at h
    | cons x xs =>
      simp only [List.map_cons, List.cons.injEq] at h
      obtain ⟨hv, hvs⟩ := h
      simp only [vecFoldAux, hv, List.foldl]
      exact ih xs _ hvs

theorem vecFoldAux_bad :
    ∀ (pre : List TVal) (seed : Nat) (v : TVal) (post : List TVal),
      hashOf v = none → vecFoldAux seed (pre ++ v :: post) = none := by
  intro pre
  induction pre with
  | nil => intro seed v post hv; simp [vecFoldAux, hv]
  | cons u pre ih =>
    intro seed v post hv
    cases hu : hashOf u
    · simp [vecFoldAux, hu]
    · simp only [List.cons_append, vecFoldAux, hu]
      exact ih _ _ _ hv

theorem tupleFoldAux_bad :
    ∀ (pre : List TVal) (acc : Nat) (v : TVal) (post : List TVal),
      hashOf v = none → tupleFoldAux acc (pre ++ v :: post) = none := by
  intro pre
  induction pre with
  | nil => intro acc v post hv; simp [tupleFoldAux, hv]
  | cons u pre ih =>
    intro acc v post hv
    cases hu : hashOf u
    · simp [tupleFoldAux, hu]
    · simp only [List.cons_append, tupleFoldAux, hu]
      exact ih _ _ _ hv

theorem tupleFoldAux_isSome :
    ∀ (vs : List TVal) (acc : Nat),
      (vs.all fun u => (hashOf u).isSome) = true →
      (tupleFoldAux acc vs).isSome = true := by
  intro vs
  induction vs with
  | nil => intro acc _; rfl
  | cons u us ih =>
    intro acc h
    simp only [List.all_cons, Bool.and_eq_true] at h
    obtain ⟨hu, hus⟩ := h
    obtain ⟨x, hx⟩ := Option.isSome_iff_exists.mp hu
    simp only [tupleFoldAux, hx]
    exact ih _ hus

theorem tuple_hash_idx_nil : ∀ i, tuple_hash_idx [] i = none := by
  intro i
  cases i <;> simp [tuple_hash_idx]

/-! ### Claim theorems -/

/-- C1: the mixing primitive equals the reference formula: for every word-sized
seed `s` and value `v`, `hash_combine s v` is
`s XOR ((v + 0x9e3779b9 + (s << 6) + (s >> 2)) mod 2^64)` — stated here with
the shifts written as multiplication and division by powers of two — and the
result is again word-sized: `hash_combine` is a total pure function with no
failure mode on any pair of inputs. -/
theorem c1_mixing_formula (s v : Nat) (hs : s < 2 ^ 64) (_hv : v < 2 ^ 64) :
    hash_combine s v = s ^^^ ((v + 0x9e3779b9 + s * 2 ^ 6 + s / 2 ^ 2) % 2 ^ 64)
    ∧ hash_combine s v < 2 ^ 64 := by
  constructor
  · unfold hash_combine wordMod
    rw [Nat.shiftLeft_eq, Nat.shiftRight_eq_div_pow]
    congr 1
    omega
  · have hm : wordMod = 2 ^ 64 := rfl
    have h2 : (v + 0x9e3779b9 + (s <<< 6) % wordMod + s >>> 2) % wordMod < 2 ^ 64 := by
      rw [hm] at *
      exact Nat.mod_lt _ (by positivity)
    exact Nat.xor_lt_two_pow hs h2

/-- Witness for C1 at seed 3, value 5. -/
theorem c1_mixing_formula_witness :
    hash_combine 3 5 = 3 ^^^ ((5 + 0x9e3779b9 + 3 * 2 ^ 6 + 3 / 2 ^ 2) % 2 ^ 64)
    ∧ hash_combine 3 5 < 2 ^ 64 :=
  c1_mixing_formula 3 5 (by norm_num) (by norm_num)

/-- C2: the tuple digest follows the stated recursion: `hashOf` on a nonempty
tuple equals `tuple_hash_idx` started at the last index, where
`tuple_hash_idx` is exactly the specified recursion (index `0`: digest is the
scalar hash of element `0`; index `i > 0`: digest is
`hash_combine(scalar hash of element i, digest of indices 0..i-1)`); a
one-element tuple hashes to its element's hash; and for a pair of scalars
`(a, b)` the digest is `hash_combine(scalar_hash b, scalar_hash a)`. -/
theorem c2_tuple_recursion (v : TVal) (vs : List TVal) (s : ScalarTy)
    (a b ha hb : Nat) :
    hashOf (TVal.tup (v :: vs)) = tuple_hash_idx (v :: vs) vs.length
    ∧ hashOf (TVal.tup [v]) = hashOf v
    ∧ (dispatch_hash s a = some ha → dispatch_hash s b = some hb →
        hashOf (TVal.tup [TVal.scalar s a, TVal.scalar s b]) =
          some (hash_combine hb ha)) := by
  refine ⟨?_, ?_, ?_⟩
  · simpa using hashOf_tup_eq_idx (v :: vs) (by simp)
  · cases hv : hashOf v <;> simp [hashOf, tupleFoldAux, hv]
  · intro h1 h2
    simp [hashOf, tupleFoldAux, h1, h2]

/-- Witness for C2: the pair `(1, 2)` of ordinary integers hashes to
`hash_combine(scalar_hash 2, scalar_hash 1)`. -/
theorem c2_tuple_recursion_witness :
    hashOf (TVal.tup [TVal.scalar natTy 1, TVal.scalar natTy 2]) =
      some (hash_combine 2 1) :=
  (c2_tuple_recursion (TVal.scalar natTy 1) [] natTy 1 2 1 2).2.2
    (by decide) (by decide)

/-- C3: the `std::vector` digest is the left fold starting from seed `0` that
updates `seed = hash_combine(seed, scalar hash of element)` in iteration
order; the empty sequence yields digest `0`. -/
theorem c3_vector_fold (vs : List TVal) (hs : List Nat) :
    (vs.map hashOf = hs.map some →
      hashOf (TVal.vec vs) = some (hs.foldl hash_combine 0))
    ∧ hashOf (TVal.vec []) = some 0 := by
  refine ⟨fun h => ?_, rfl⟩
  show vecFoldAux 0 vs = _
  exact vecFoldAux_foldl vs hs 0 h

/-- Witness for C3 on the two-element vector `[1, 2]`. -/
theorem c3_vector_fold_witness :
    hashOf (TVal.vec [TVal.scalar natTy 1, TVal.scalar natTy 2]) =
      some ([1, 2].foldl hash_combine 0) :=
  (c3_vector_fold [TVal.scalar natTy 1, TVal.scalar natTy 2] [1, 2]).1 (by decide)

/-- C4 counterexample: at the concrete type `bothTy`, which both has a usable
`std::hash` and defines a static `hash` member, the claim "the custom strategy
is attempted first and takes precedence" is false: overloads 1 and 3 of
`dispatch_hash` have identical parameter lists and both survive SFINAE, so the
call is ambiguous and fails to compile — `hashOf` produces no digest at all,
in particular not the custom method's result. -/
theorem c4_custom_precedence_cex :
    bothTy.hasStdHash = true ∧ bothTy.isEnum = false ∧ bothTy.hasCustomHash = true
    ∧ hashOf (TVal.scalar bothTy 0) ≠ some (bothTy.customHash 0)
    ∧ hashOf (TVal.scalar bothTy 0) = none := by
  decide

/-- C4 (amended): for a non-enum type that defines a static custom `hash`
member, dispatch uses the custom method exactly when `std::hash` is not
usable; when `std::hash` is also usable, overload resolution between the two
identical-signature `dispatch_hash` templates is ambiguous and the call fails
to compile (no digest is produced). -/
theorem c4_custom_only_when_unique (s : ScalarTy) (n : Nat)
    (h1 : s.isEnum = false) (h2 : s.hasCustomHash = true) :
    dispatch_hash s n = if s.hasStdHash then none else some (s.customHash n) := by
  cases hstd : s.hasStdHash <;> simp [dispatch_hash, h1, h2, hstd]

/-- Witness for the amended C4: `custTy` only defines the custom method, and
dispatch returns the custom result. -/
theorem c4_custom_only_when_unique_witness :
    dispatch_hash custTy 5 =
      if custTy.hasStdHash then none else some (custTy.customHash 5) :=
  c4_custom_only_when_unique custTy 5 rfl rfl

/-- C5: for every enum type `E` (no custom member; `std::hash<E>` may or may
not exist — overload 1 is disabled for enums either way) and every value,
`hashOf` on the enum equals `hashOf` on its underlying integer representation
hashed at the underlying integral type via the standard strategy. -/
theorem c5_enum_underlying (s : ScalarTy) (n : Nat)
    (h1 : s.isEnum = true) (h2 : s.hasCustomHash = false) :
    hashOf (TVal.scalar s n) = hashOf (TVal.scalar (stdOnlyTy s.underStdHash) n)
    ∧ hashOf (TVal.scalar (stdOnlyTy s.underStdHash) n) = some (s.underStdHash n) := by
  constructor
  · show dispatch_hash s n = dispatch_hash (stdOnlyTy s.underStdHash) n
    simp [dispatch_hash, h1, h2, stdOnlyTy]
  · rfl

/-- Witness for C5: the enum `enumE` at value 4 hashes like its underlying
integer 4 under the underlying type's `std::hash`. -/
theorem c5_enum_underlying_witness :
    hashOf (TVal.scalar enumE 4) =
      hashOf (TVal.scalar (stdOnlyTy enumE.underStdHash) 4)
    ∧ hashOf (TVal.scalar (stdOnlyTy enumE.underStdHash) 4) =
      some (enumE.underStdHash 4) :=
  c5_enum_underlying enumE 4 rfl rfl

/-- C6: the variadic entry point equals tuple hashing of the arguments grouped
in argument order: for every argument list, and in particular for any three
arguments `a, b, c`, `get_hash args = hashOf (tuple of args)`. -/
theorem c6_variadic_equiv (args : List TVal) (a b c : TVal) :
    get_hash args = hashOf (TVal.tup args)
    ∧ get_hash [a, b, c] = hashOf (TVal.tup [a, b, c]) :=
  ⟨rfl, rfl⟩

/-- C7: the mixing primitive is order sensitive: it is not true that
`hash_combine (hash_combine s a) b = hash_combine (hash_combine s b) a` for
all `s, a, b`; at the typical inputs `s = 0, a = 1, b = 2` the two orders
differ; and reversing the two-element vector `[1, 2]` of ordinary integers
changes the digest. -/
theorem c7_order_sensitive :
    (¬ ∀ s a b : Nat, hash_combine (hash_combine s a) b
        = hash_combine (hash_combine s b) a)
    ∧ hash_combine (hash_combine 0 1) 2 ≠ hash_combine (hash_combine 0 2) 1
    ∧ hashOf (TVal.vec [TVal.scalar natTy 1, TVal.scalar natTy 2])
        ≠ hashOf (TVal.vec [TVal.scalar natTy 2, TVal.scalar natTy 1]) := by
  refine ⟨fun h => absurd (h 0 1 2) (by decide), by decide, by decide⟩

/-- C8: for a type for which none of the three strategies resolves (no
`std::hash`, not an enum, no static `hash` member), hashing a value of the
type — directly, inside a tuple at any position, inside a vector at any
position, or through `get_hash` — fails at type-resolution time (`none`): no
degenerate digest is ever produced. -/
theorem c8_unhashable_fails (s : ScalarTy) (n : Nat) (pre post : List TVal)
    (h1 : s.hasStdHash = false) (h2 : s.isEnum = false)
    (h3 : s.hasCustomHash = false) :
    hashOf (TVal.scalar s n) = none
    ∧ hashOf (TVal.tup (pre ++ TVal.scalar s n :: post)) = none
    ∧ hashOf (TVal.vec (pre ++ TVal.scalar s n :: post)) = none
    ∧ get_hash (pre ++ TVal.scalar s n :: post) = none := by
  have hbad : hashOf (TVal.scalar s n) = none := by
    show dispatch_hash s n = none
    simp [dispatch_hash, h1, h2, h3]
  have hd : dispatch_hash s n = none := hbad
  have htup : hashOf (TVal.tup (pre ++ TVal.scalar s n :: post)) = none := by
    cases pre with
    | nil => simp [hashOf, hd]
    | cons u us =>
      cases hu : hashOf u
      · simp [hashOf, hu]
      · simp only [List.cons_append, hashOf, hu]
        exact tupleFoldAux_bad _ _ _ _ hbad
  have hvec : hashOf (TVal.vec (pre ++ TVal.scalar s n :: post)) = none := by
    show vecFoldAux 0 _ = none
    exact vecFoldAux_bad _ _ _ _ hbad
  exact ⟨hbad, htup, hvec, htup⟩

/-- Witness for C8 at the concrete unhashable type `badTy`. -/
theorem c8_unhashable_fails_witness :
    hashOf (TVal.scalar badTy 0) = none
    ∧ hashOf (TVal.tup [TVal.scalar badTy 0]) = none
    ∧ hashOf (TVal.vec [TVal.scalar badTy 0]) = none
    ∧ get_hash [TVal.scalar badTy 0] = none :=
  c8_unhashable_fails badTy 0 [] [] rfl rfl rfl

/-- C9: tuple hashing is defined only for arity at least one: the empty tuple
(and hence `get_hash` with zero arguments) produces no digest — the literal
index recursion `tuple_hash_idx` on the empty tuple reaches no base case at
any start index — while every nonempty tuple whose components all hash
successfully produces a digest. -/
theorem c9_empty_tuple (v : TVal) (vs : List TVal) (idx : Nat)
    (h1 : (hashOf v).isSome = true)
    (h2 : (vs.all fun u => (hashOf u).isSome) = true) :
    hashOf (TVal.tup []) = none
    ∧ get_hash [] = none
    ∧ tuple_hash_idx [] idx = none
    ∧ (hashOf (TVal.tup (v :: vs))).isSome = true := by
  refine ⟨rfl, rfl, tuple_hash_idx_nil idx, ?_⟩
  obtain ⟨x, hx⟩ := Option.isSome_iff_exists.mp h1
  simp only [hashOf, hx]
  exact tupleFoldAux_isSome vs x h2

/-- Witness for C9 with the concrete nonempty tuple `(1, 2)`. -/
theorem c9_empty_tuple_witness :
    hashOf (TVal.tup []) = none
    ∧ get_hash [] = none
    ∧ tuple_hash_idx [] 3 = none
    ∧ (hashOf (TVal.tup [TVal.scalar natTy 1, TVal.scalar natTy 2])).isSome = true :=
  c9_empty_tuple (TVal.scalar natTy 1) [TVal.scalar natTy 2] 3
    (by decide) (by decide)

/-- C10: a one-element tuple `(x)` — and hence `get_hash` with one argument —
hashes to exactly the scalar hash of `x` (no combine step: the digests of
`(x)` and `x` collide), while the one-element vector `[x]` hashes to
`hash_combine(0, scalar hash of x)`, which is the scalar hash plus
`0x9e3779b9` modulo `2^64`. -/
theorem c10_singleton (v : TVal) (h : Nat) (hv : hashOf v = some h) :
    hashOf (TVal.tup [v]) = some h
    ∧ get_hash [v] = some h
    ∧ hashOf (TVal.vec [v]) = some ((h + 0x9e3779b9) % 2 ^ 64) := by
  have htup : hashOf (TVal.tup [v]) = some h := by
    simp [hashOf, tupleFoldAux, hv]
  refine ⟨htup, htup, ?_⟩
  show vecFoldAux 0 [v] = _
  simp only [vecFoldAux, hv]
  have : hash_combine 0 h = (h + 0x9e3779b9) % 2 ^ 64 := by
    simp [hash_combine, wordMod, Nat.zero_shiftLeft, Nat.zero_shiftRight]
  rw [this]

/-- Witness for C10 at the scalar value 5. -/
theorem c10_singleton_witness :
    hashOf (TVal.tup [TVal.scalar natTy 5]) = some 5
    ∧ get_hash [TVal.scalar natTy 5] = some 5
    ∧ hashOf (TVal.vec [TVal.scalar natTy 5]) = some ((5 + 0x9e3779b9) % 2 ^ 64) :=
  c10_singleton (TVal.scalar natTy 5) 5 (by decide)

end TorchHash
